import Mathlib

/-
Verification of the commit-analysis script (src/commit_analysis.py).

Python strings are modelled as `List Char`; machine-level concerns do not
arise (the script works on text only).  Fallible Python code (unguarded
parses, uncaught exceptions) is modelled with `Option`/`Except`, where
`none`/`.error` means "the Python code raises at this point".
All definitions are translated from the source file; the only
spec-side definition is `specReportPath`, used to compare the report-path
formula stated in the spec against the code.
-/

set_option autoImplicit false

abbrev Str := List Char

/-- ASCII whitespace as recognised by Python's `str.strip` / `\s`
(scope: the ASCII subset; the script never meets non-ASCII whitespace). -/
def pyIsSpace (c : Char) : Bool :=
  c = ' ' || c = '\t' || c = '\n' || c = '\r' || c = '\x0b' || c = '\x0c'

/-- Python `str.strip()`: drop whitespace from both ends. -/
def pyStrip (s : Str) : Str :=
  ((s.dropWhile pyIsSpace).reverse.dropWhile pyIsSpace).reverse

/-- Number of pipe delimiters in a line. -/
def countPipe : Str → Nat
  | [] => 0
  | c :: t => (if c = '|' then 1 else 0) + countPipe t

/-- Split at the first pipe, if any (helper for Python `split('|', maxsplit)`). -/
def splitFirst : Str → Option (Str × Str)
  | [] => none
  | c :: t =>
    if c = '|' then some ([], t)
    else
      match splitFirst t with
      | none => none
      | some (a, b) => some (c :: a, b)

/-- Python `s.split('|', n)`: split on `'|'` at most `n` times. -/
def pySplit : Nat → Str → List Str
  | 0, s => [s]
  | n + 1, s =>
    match splitFirst s with
    | none => [s]
    | some (a, b) => a :: pySplit n b

/-- A commit record as built by `fetch_commits` (line 52 of the source). -/
structure Commit where
  hash : Str
  date : Str
  message : Str
deriving DecidableEq, Repr

/-- One iteration of the parsing loop in `fetch_commits` (lines 46-52):
skip whitespace-only lines, `split('|', 2)`, keep only 3-field results. -/
def fetch_parse_line (line : Str) : Option Commit :=
  if line.all pyIsSpace then none
  else
    match pySplit 2 line with
    | [h, d, m] => some ⟨h, d, m⟩
    | _ => none

/-- The whole parsing loop of `fetch_commits` (lines 44-53) applied to the
log output lines. -/
def fetch_commits_parse (lines : List Str) : List Commit :=
  lines.filterMap fetch_parse_line

/-- Insertion step of `group_commits_by_date` (line 62): append the message to
the group of the given date, creating the group at the end on first sight
(Python dicts preserve insertion order). -/
def addCommit : List (Str × List Str) → Str → Str → List (Str × List Str)
  | [], d, m => [(d, [m])]
  | (k, ms) :: rest, d, m =>
    if k = d then (k, ms ++ [m]) :: rest else (k, ms) :: addCommit rest d m

/-- The grouping loop of `group_commits_by_date` (lines 59-63). -/
def group_commits_by_date (commits : List Commit) : List (Str × List Str) :=
  commits.foldl (fun acc c => addCommit acc c.date c.message) []

/-- Python dict lookup `grouped[date]` on the insertion-ordered grouping. -/
def lookupGroup : List (Str × List Str) → Str → Option (List Str)
  | [], _ => none
  | (k, ms) :: rest, d => if k = d then some ms else lookupGroup rest d

/-- The messages of the commits carrying a given date, in input order (used to
state what a date's group must contain). -/
def msgsOn (commits : List Commit) (d : Str) : List Str :=
  (commits.filter (fun c => decide (c.date = d))).map Commit.message

/-- A calendar date as produced by `datetime.datetime.strptime(., '%Y-%m-%d').date()`. -/
structure PyDate where
  year : Nat
  month : Nat
  day : Nat
deriving DecidableEq, Repr

/-- Python `date` comparison: lexicographic on (year, month, day). -/
def PyDate.ltb (a b : PyDate) : Bool :=
  decide (a.year < b.year ∨ (a.year = b.year ∧
    (a.month < b.month ∨ (a.month = b.month ∧ a.day < b.day))))

def isDigitCh (c : Char) : Bool := decide ('0' ≤ c ∧ c ≤ '9')

def digitsToNat (l : Str) : Nat :=
  l.foldl (fun acc c => acc * 10 + (c.toNat - 48)) 0

/-- Full split on a separator character (helper for the strptime model). -/
def splitAllAux (sep : Char) : Str → Str → List Str
  | [], acc => [acc.reverse]
  | c :: t, acc =>
    if c = sep then acc.reverse :: splitAllAux sep t []
    else splitAllAux sep t (c :: acc)

def splitAll (sep : Char) (s : Str) : List Str := splitAllAux sep s []

def isLeapYear (y : Nat) : Bool := y % 4 = 0 && (y % 100 != 0 || y % 400 = 0)

def daysInMonth (y m : Nat) : Nat :=
  if m = 2 then (if isLeapYear y then 29 else 28)
  else if m = 4 || m = 6 || m = 9 || m = 11 then 30
  else 31

/-- CPython `datetime.datetime.strptime(s, '%Y-%m-%d').date()` (line 69):
the %Y directive matches exactly four digits, %m one or two digits valued
1-12, %d one or two digits valued 1-31; the whole string must be consumed;
`datetime.date` then validates the day against the month length and
requires year ≥ 1 (MINYEAR).  `none` means the Python call raises. -/
def parseDate (s : Str) : Option PyDate :=
  match splitAll '-' s with
  | [ys, ms, ds] =>
    if ys.length = 4 && ys.all isDigitCh
        && (ms.length = 1 || ms.length = 2) && ms.all isDigitCh
        && (ds.length = 1 || ds.length = 2) && ds.all isDigitCh then
      let y := digitsToNat ys
      let m := digitsToNat ms
      let d := digitsToNat ds
      if 1 ≤ y && 1 ≤ m && m ≤ 12 && 1 ≤ d && d ≤ daysInMonth y m then
        some ⟨y, m, d⟩
      else none
    else none
  | _ => none

/-- Skip test `start_date and commit_date < start_date` (line 70); a date
object is always truthy, `None` is falsy. -/
def startSkip (start_date : Option PyDate) (d : PyDate) : Bool :=
  match start_date with
  | some sd => PyDate.ltb d sd
  | none => false

/-- Skip test `end_date and commit_date > end_date` (line 72). -/
def endSkip (end_date : Option PyDate) (d : PyDate) : Bool :=
  match end_date with
  | some ed => PyDate.ltb ed d
  | none => false

/-- The loop of `filter_commits` (lines 66-75); `none` models the unguarded
`strptime` raising on a malformed date string. -/
def filter_commits (commits : List Commit) (start_date end_date : Option PyDate) :
    Option (List Commit) :=
  match commits with
  | [] => some []
  | c :: rest =>
    match parseDate c.date with
    | none => none
    | some d =>
      match filter_commits rest start_date end_date with
      | none => none
      | some fr =>
        if startSkip start_date d then some fr
        else if endSkip end_date d then some fr
        else some (c :: fr)

/-- A parsed JSON value, as returned by `response.json()`. -/
inductive PyJson where
  | jnull
  | jbool (b : Bool)
  | jnum (n : Int)
  | jstr (s : Str)
  | jarr (xs : List PyJson)
  | jobj (kvs : List (Str × PyJson))

/-- Python dict lookup (JSON object keys are unique; first match). -/
def lookupKV : List (Str × PyJson) → Str → Option PyJson
  | [], _ => none
  | (k, v) :: rest, key => if k = key then some v else lookupKV rest key

/-- Python truthiness of a parsed JSON value. -/
def pyTruthy : PyJson → Bool
  | .jnull => false
  | .jbool b => b
  | .jnum n => decide (n ≠ 0)
  | .jstr s => !s.isEmpty
  | .jarr xs => !xs.isEmpty
  | .jobj kvs => !kvs.isEmpty

def startsWithCL : Str → Str → Bool
  | [], _ => true
  | _ :: _, [] => false
  | a :: as, b :: bs => a = b && startsWithCL as bs

/-- Contiguous-substring test (Python `in` on strings). -/
def isSubstrCL (needle : Str) : Str → Bool
  | [] => startsWithCL needle []
  | c :: t => startsWithCL needle (c :: t) || isSubstrCL needle t

/-- Python `key in value` on a parsed JSON value; `.error` models the
TypeError raised on non-container values (exception texts throughout the
JSON model are abbreviated stand-ins for CPython's messages). -/
def pyIn (key : Str) : PyJson → Except Str Bool
  | .jobj kvs => .ok (kvs.any (fun kv => decide (kv.1 = key)))
  | .jarr xs =>
    .ok (xs.any (fun v => match v with | .jstr s => decide (s = key) | _ => false))
  | .jstr s => .ok (isSubstrCL key s)
  | _ => .error "argument of type is not iterable".data

/-- Python `value[key]` with a string key. -/
def pySubscr : PyJson → Str → Except Str PyJson
  | .jobj kvs, key =>
    match lookupKV kvs key with
    | some v => .ok v
    | none => .error ("KeyError: ".data ++ key)
  | .jarr _, _ => .error "list indices must be integers or slices".data
  | .jstr _, _ => .error "string indices must be integers".data
  | _, _ => .error "object is not subscriptable".data

/-- Python `value[0]`. -/
def pyIndex0 : PyJson → Except Str PyJson
  | .jarr (x :: _) => .ok x
  | .jarr [] => .error "list index out of range".data
  | .jstr (c :: _) => .ok (.jstr [c])
  | .jstr [] => .error "string index out of range".data
  | .jobj _ => .error "KeyError: 0".data
  | _ => .error "object is not subscriptable".data

/-- The extracted `text` field.  The remote API returns it as a JSON string;
were it not a string, CPython would hand the raw object downstream (the
report's f-string would render it) — that rendering is abbreviated here. -/
def pyStrOf : PyJson → Str
  | .jstr s => s
  | _ => "<non-string json value>".data

/-- What the network interaction of `summarize_with_gemini` produced:
either some exception out of `requests.post` / `raise_for_status` /
`response.json()` (carrying its message), or a parsed JSON body. -/
inductive NetOutcome where
  | raiseMsg (msg : Str)
  | okJson (result : PyJson)

/-- The network environment: maps (prompt, api key) of the single POST to
its outcome. -/
abbrev GeminiNet := Str → Str → NetOutcome

/-- Python `'\n'.join(strings)` (used for the prompt, line 80, and the
report document, line 137). -/
def pyJoinNL : List Str → Str
  | [] => []
  | [m] => m
  | m :: rest => m ++ '\n' :: pyJoinNL rest

/-- The prompt built at line 80. -/
def gemini_prompt (messages : List Str) : Str :=
  ("Summarize the following git commit messages as a daily work report, " ++
    "focusing on tasks completed. Messages: ").data ++ pyJoinNL messages

def noSummarySentinel : Str := "[No summary returned by Gemini API]".data

def geminiError (m : Str) : Str := "[Gemini API error: ".data ++ m ++ "]".data

/-- The try-block of `summarize_with_gemini` (lines 88-94): `.error`
is an exception about to be swallowed by the catch-all at line 95. -/
def geminiTry (outcome : NetOutcome) : Except Str Str :=
  match outcome with
  | .raiseMsg m => .error m
  | .okJson result =>
    match pyIn "candidates".data result with
    | .error m => .error m
    | .ok hasC =>
      if hasC then
        match pySubscr result "candidates".data with
        | .error m => .error m
        | .ok cands =>
          if pyTruthy cands then
            match pyIndex0 cands with
            | .error m => .error m
            | .ok c0 =>
              match pySubscr c0 "content".data with
              | .error m => .error m
              | .ok content =>
                match pySubscr content "parts".data with
                | .error m => .error m
                | .ok parts =>
                  match pyIndex0 parts with
                  | .error m => .error m
                  | .ok p0 =>
                    match pySubscr p0 "text".data with
                    | .error m => .error m
                    | .ok text => .ok (pyStrOf text)
          else .ok noSummarySentinel
      else .ok noSummarySentinel

/-- `summarize_with_gemini` (lines 78-96): every exception of the try-block
degrades to the error sentinel string (line 96). -/
def summarize_with_gemini (net : GeminiNet) (messages : List Str) (api_key : Str) : Str :=
  match geminiTry (net (gemini_prompt messages) api_key) with
  | .ok s => s
  | .error m => geminiError m

/-- Python `str.splitlines()` (newline kinds restricted to \n, \r, \r\n; the
summaries at issue contain only \n). -/
def pySplitlinesAux : Str → Str → List Str
  | [], acc => if acc.isEmpty then [] else [acc.reverse]
  | '\r' :: '\n' :: rest, acc => acc.reverse :: pySplitlinesAux rest []
  | '\r' :: rest, acc => acc.reverse :: pySplitlinesAux rest []
  | '\n' :: rest, acc => acc.reverse :: pySplitlinesAux rest []
  | c :: rest, acc => pySplitlinesAux rest (c :: acc)

def pySplitlines (s : Str) : List Str := pySplitlinesAux s []

/-- The regex test `re.match(r'^[*-]\s+', line)` (line 105) on an already
stripped line: first char a star or dash, second char whitespace. -/
def bulletMatch : Str → Bool
  | c0 :: c1 :: _ => (c0 = '*' || c0 = '-') && pyIsSpace c1
  | _ => false

/-- Python `line.lstrip('*-')` (line 106). -/
def stripBulletMarks (l : Str) : Str :=
  l.dropWhile (fun c => c = '*' || c = '-')

/-- `extract_task_points` (lines 98-110). -/
def extract_task_points (summary : Str) : List Str :=
  let points := (pySplitlines summary).filterMap (fun line =>
    let line := pyStrip line
    if bulletMatch line then some (pyStrip (stripBulletMarks line)) else none)
  if points.isEmpty && !(pyStrip summary).isEmpty then [pyStrip summary] else points

/-- Lexicographic comparison of Python strings (code-point order). -/
def lexLe : Str → Str → Bool
  | [], _ => true
  | _ :: _, [] => false
  | a :: as, b :: bs => if a = b then lexLe as bs else decide (a < b)

def insertSorted (x : Str) : List Str → List Str
  | [] => [x]
  | y :: ys => if lexLe x y then x :: y :: ys else y :: insertSorted x ys

/-- Python `sorted(keys)` (line 125): a stable sort under string order (the
keys are distinct dates, so any correct sort agrees with Timsort). -/
def pySorted (l : List Str) : List Str := l.foldr insertSorted []

/-- Zero-padded decimal rendering for `strftime('%Y-%m-%d')`; the dates at
play have years in 1..9999. -/
def digitChar (n : Nat) : Char := Char.ofNat (48 + n)

def fmt2 (n : Nat) : Str := [digitChar (n / 10 % 10), digitChar (n % 10)]

def fmt4 (n : Nat) : Str :=
  [digitChar (n / 1000 % 10), digitChar (n / 100 % 10),
   digitChar (n / 10 % 10), digitChar (n % 10)]

def fmtDate (d : PyDate) : Str :=
  fmt4 d.year ++ '-' :: (fmt2 d.month ++ '-' :: fmt2 d.day)

/-- The dynamic type of the `start_date`/`end_date` arguments reaching
`analyze_commits`: the prompt produces `datetime.date` objects, but the
top-level flow (lines 250-251) can also pass the raw date strings. -/
inductive DateOrStr where
  | date (d : PyDate)
  | str (s : Str)

/-- Python `==` between the two possible argument types (a date never equals
a string; no exception). -/
def pyEqDS : DateOrStr → DateOrStr → Bool
  | .date a, .date b => decide (a = b)
  | .str a, .str b => decide (a = b)
  | _, _ => false

/-- `.strftime('%Y-%m-%d')` on such an argument; `none` models the
AttributeError a string raises (`str` has no `strftime`). -/
def strftimeD : DateOrStr → Option Str
  | .date d => some (fmtDate d)
  | .str _ => none

/-- Lines 116-119 of `analyze_commits`: the date label; computed before
anything is written, so `none` means the function raises with no report. -/
def dateLabel (start_date end_date : DateOrStr) : Option Str :=
  if pyEqDS start_date end_date then strftimeD start_date
  else
    match strftimeD start_date, strftimeD end_date with
    | some a, some b => some (a ++ "_to_".data ++ b)
    | _, _ => none

/-- The run's durable and console outputs: the report file path, the
markdown lines (joined with newlines on write), and the task points printed
to the console. -/
structure Report where
  path : Str
  lines : List Str
  points : List Str
deriving DecidableEq, Repr

/-- `analyze_commits` (lines 113-142).  `repoName` stands for
`os.path.basename(os.path.abspath(repo_path))` (line 115) and
`os.path.join` is POSIX concatenation with '/'.  The source fills
`output_lines` and `all_points` in one pass over the sorted dates
(lines 125-136); here the same per-date block is projected twice. -/
def analyze_commits (net : GeminiNet) (commits : List Commit) (api_key repoName : Str)
    (start_date end_date : DateOrStr) : Option Report :=
  let grouped := group_commits_by_date commits
  match dateLabel start_date end_date with
  | none => none
  | some date_str =>
    let report_file := "reports/".data ++ repoName ++ "/".data ++ date_str ++ ".md".data
    let dates := pySorted (grouped.map Prod.fst)
    let header := "# Work Summary for ".data ++ repoName ++ " (".data ++ date_str ++ ")\n".data
    let block := fun (d : Str) =>
      let messages := (lookupGroup grouped d).getD []
      let summary := summarize_with_gemini net messages api_key
      (("## Date: ".data ++ d) ::
         ("**Summary:** ".data ++ summary ++ "\n".data) ::
         "**Messages:**".data ::
         (messages.map (fun m => "- ".data ++ m) ++ [([] : Str)]),
       extract_task_points summary)
    some { path := report_file,
           lines := header :: (dates.map (fun d => (block d).1)).flatten,
           points := (dates.map (fun d => (block d).2)).flatten }

/-- A flat file store: path to contents.  `open(path, 'w')` + `write`
replaces whatever was there (line 138). -/
def fsWrite (fs : Str → Option Str) (p c : Str) : Str → Option Str :=
  fun q => if q = p then some c else fs q

/-- Follows the spec's words (the output artifact
`reports/<repo-name>/<date-or-range>.md`, label `start_to_end` when the
endpooints differ): compared against the path `analyze_commits` computes. -/
def specReportPath (repoName : Str) (s e : PyDate) : Str :=
  "reports/".data ++ repoName ++ "/".data ++
    (if s = e then fmtDate s else fmtDate s ++ "_to_".data ++ fmtDate e) ++ ".md".data

/-- Outcome of the `__main__` block: a `sys.exit` code, an uncaught
exception, or normal completion with a written report. -/
inductive MainResult where
  | exitCode (n : Nat)
  | exception
  | completed (rep : Report)
deriving DecidableEq, Repr

/-- The top-level flow after prompting (lines 236-252), as a function of the
fetched commits and the prompted date bounds. -/
def mainFlow (net : GeminiNet) (api_key repoName : Str) (commits : List Commit)
    (start_date end_date : Option PyDate) : MainResult :=
  if commits.isEmpty then .exitCode 1
  else
    match filter_commits commits start_date end_date with
    | none => .exception
    | some filtered =>
      match filtered with
      | [] => .exitCode 0
      | f :: rest =>
        let sArg := match start_date with
          | some d => DateOrStr.date d
          | none => DateOrStr.str f.date
        let eArg := match end_date with
          | some d => DateOrStr.date d
          | none => DateOrStr.str ((f :: rest).getLast (List.cons_ne_nil f rest)).date
        match analyze_commits net (f :: rest) api_key repoName sArg eArg with
        | none => .exception
        | some rep => .completed rep

/-- Digit run of Python `int(str)` after an optional sign: nonempty digits
with single underscores allowed between digits. -/
def pyIntDigitsTail : Str → Bool
  | [] => true
  | ['_'] => false
  | '_' :: c :: rest => isDigitCh c && pyIntDigitsTail rest
  | c :: rest => isDigitCh c && pyIntDigitsTail rest

def pyIntDigits : Str → Bool
  | [] => false
  | c :: rest => isDigitCh c && pyIntDigitsTail rest

/-- Python `int(s)` on a string (ASCII scope): strip whitespace, optional
sign, digits; `none` models the ValueError. -/
def pyInt (s : Str) : Option Int :=
  match pyStrip s with
  | '+' :: rest =>
    if pyIntDigits rest then some (Int.ofNat (digitsToNat (rest.filter isDigitCh))) else none
  | '-' :: rest =>
    if pyIntDigits rest then some (-(Int.ofNat (digitsToNat (rest.filter isDigitCh)))) else none
  | rest =>
    if pyIntDigits rest then some (Int.ofNat (digitsToNat (rest.filter isDigitCh))) else none

/-- Outcome of `prompt_repo_path`: a chosen path, or `sys.exit(code)`. -/
inductive PromptResult where
  | path (p : Str)
  | exit (code : Nat)
deriving DecidableEq, Repr

/-- `prompt_repo_path` (lines 157-190) as a function of the stored paths,
the operator's two possible inputs, and the `os.path.isdir` oracle.
`sys.exit` raises SystemExit, which the `except Exception` does not catch.
`paths.getD` stands for the in-bounds `paths[choice-1]`. -/
def prompt_repo_path (paths : List Str) (choice newPath : Str)
    (isDir : Str → Bool) : PromptResult :=
  match paths with
  | [] =>
    let np := pyStrip newPath
    if isDir np then .path np else .exit 1
  | _ :: _ =>
    match pyInt (pyStrip choice) with
    | none => .exit 1
    | some n =>
      if 1 ≤ n ∧ n ≤ (paths.length : Int) then .path (paths.getD (n - 1).toNat [])
      else if n = (paths.length : Int) + 1 then
        let np := pyStrip newPath
        if isDir np then .path np else .exit 1
      else .exit 1

/-- Truthiness of an optional credential string (`if not api_key`). -/
def pyFalsyStrOpt : Option Str → Bool
  | none => true
  | some s => s.isEmpty

/-- Credential resolution of `prompt_user` (lines 226-233): dotenv value,
then environment variable, then typed input; `none` models `sys.exit(1)`. -/
def resolveApiKey (dotenvKey envKey : Option Str) (typed : Str) : Option Str :=
  let k1 := dotenvKey
  let k2 := if pyFalsyStrOpt k1 then envKey else k1
  let k3 := if pyFalsyStrOpt k2 then some (pyStrip typed) else k2
  if pyFalsyStrOpt k3 then none else k3

/-- A network environment whose one request always fails with `msg`. -/
def netFail (msg : Str) : GeminiNet := fun _ _ => .raiseMsg msg

/-- A network environment answering 200 with body `null`. -/
def netNull : GeminiNet := fun _ _ => .okJson .jnull

/-- A network environment answering 200 with an object lacking candidates. -/
def netNoCand : GeminiNet := fun _ _ => .okJson (.jobj [("other".data, .jnull)])

/-- A network environment answering 200 with an empty candidates list. -/
def netEmptyCand : GeminiNet :=
  fun _ _ => .okJson (.jobj [("candidates".data, .jarr [])])

theorem countPipe_append (a b : Str) : countPipe (a ++ b) = countPipe a + countPipe b := by
  induction a with
  | nil => simp [countPipe]
  | cons c t ih => simp [countPipe, ih, Nat.add_assoc]

theorem splitFirst_spec (l : Str) :
    (splitFirst l = none ∧ countPipe l = 0) ∨
    (∃ a b, splitFirst l = some (a, b) ∧ countPipe a = 0 ∧ l = a ++ '|' :: b) := by
  induction l with
  | nil => exact Or.inl ⟨rfl, rfl⟩
  | cons c t ih =>
    by_cases hc : c = '|'
    · exact Or.inr ⟨[], t, by simp [splitFirst, hc], rfl, by simp [hc]⟩
    · rcases ih with ⟨h1, h2⟩ | ⟨a, b, h1, h2, h3⟩
      · refine Or.inl ⟨?_, ?_⟩
        · simp [splitFirst, hc, h1]
        · simp [countPipe, hc, h2]
      · refine Or.inr ⟨c :: a, b, ?_, ?_, ?_⟩
        · simp [splitFirst, hc, h1]
        · simp [countPipe, hc, h2]
        · simp [h3]

theorem countPipe_cons_pipe (b : Str) : countPipe ('|' :: b) = countPipe b + 1 := by
  simp [countPipe, Nat.add_comm]

theorem splitFirst_of_count_zero {l : Str} (h : countPipe l = 0) : splitFirst l = none := by
  rcases splitFirst_spec l with ⟨h1, _⟩ | ⟨a, b, h1, h2, h3⟩
  · exact h1
  · rw [h3, countPipe_append, countPipe_cons_pipe] at h; omega

theorem splitFirst_append {a : Str} (ha : countPipe a = 0) (b : Str) :
    splitFirst (a ++ '|' :: b) = some (a, b) := by
  induction a with
  | nil => simp [splitFirst]
  | cons c t ih =>
    have hc : c ≠ '|' := by
      intro hc
      simp [countPipe, hc] at ha
    have ht : countPipe t = 0 := by
      simp [countPipe, hc] at ha
      exact ha
    simp [splitFirst, hc, ih ht]

theorem pySplit_of_count_zero {l : Str} (h : countPipe l = 0) (n : Nat) :
    pySplit n l = [l] := by
  cases n with
  | zero => rfl
  | succ k => simp [pySplit, splitFirst_of_count_zero h]

theorem pySplit_two_of_count_one {l : Str} (h : countPipe l = 1) :
    ∃ x y, pySplit 2 l = [x, y] := by
  rcases splitFirst_spec l with ⟨_, h2⟩ | ⟨a, b, h1, h2, h3⟩
  · omega
  · have hb : countPipe b = 0 := by
      rw [h3, countPipe_append, countPipe_cons_pipe] at h; omega
    exact ⟨a, b, by simp [pySplit, h1, splitFirst_of_count_zero hb]⟩

theorem pySplit_two_of_count_ge {l : Str} (h : 2 ≤ countPipe l) :
    ∃ x y z, pySplit 2 l = [x, y, z] := by
  rcases splitFirst_spec l with ⟨_, h2⟩ | ⟨a, b, h1, h2, h3⟩
  · omega
  · have hb : 1 ≤ countPipe b := by
      rw [h3, countPipe_append, countPipe_cons_pipe] at h; omega
    rcases splitFirst_spec b with ⟨_, hb2⟩ | ⟨c, d, hb1, hb2, hb3⟩
    · omega
    · exact ⟨a, c, d, by simp [pySplit, h1, hb1]⟩

theorem all_space_false_of_pipe {l : Str} (h : countPipe l ≠ 0) :
    l.all pyIsSpace = false := by
  induction l with
  | nil => simp [countPipe] at h
  | cons c t ih =>
    by_cases hc : c = '|'
    · subst hc
      simp [List.all_cons, pyIsSpace]
    · have ht : countPipe t ≠ 0 := by
        simp [countPipe, hc] at h
        exact h
      simp [List.all_cons, ih ht]

theorem fetch_parse_line_none {l : Str} (h : countPipe l < 2) :
    fetch_parse_line l = none := by
  by_cases hs : l.all pyIsSpace
  · simp [fetch_parse_line, hs]
  · have : countPipe l = 0 ∨ countPipe l = 1 := by omega
    rcases this with h0 | h1
    · simp [fetch_parse_line, hs, pySplit_of_count_zero h0]
    · obtain ⟨x, y, hxy⟩ := pySplit_two_of_count_one h1
      simp [fetch_parse_line, hs, hxy]

theorem fetch_parse_line_some {l : Str} (h : 2 ≤ countPipe l) :
    ∃ c, fetch_parse_line l = some c := by
  have hs : l.all pyIsSpace = false := all_space_false_of_pipe (by omega)
  obtain ⟨x, y, z, hxyz⟩ := pySplit_two_of_count_ge h
  exact ⟨⟨x, y, z⟩, by simp [fetch_parse_line, hs, hxyz]⟩

/-- C1 (counterexample): the claim says lines with other than exactly two pipe
delimiters are dropped; the line `a|b|c|d` has three delimiters, yet it is
kept (as hash `a`, date `b`, message `c|d`), so the parse differs from the
parse of the exactly-two-delimiter lines. -/
theorem claim_C1_cex :
    ¬ (fetch_commits_parse ["a|b|c|d".data] =
        fetch_commits_parse (List.filter (fun l => decide (countPipe l = 2)) ["a|b|c|d".data])) := by
  decide

/-- C1 (amended): a line with fewer than two pipe delimiters is dropped by the
commit parser, and dropping it does not affect the other lines: the returned
commit sequence equals the parse of exactly those lines that contain at least
two delimiters, in order. -/
theorem claim_C1_thm (lines : List Str) :
    fetch_commits_parse lines =
      fetch_commits_parse (List.filter (fun l => decide (2 ≤ countPipe l)) lines) := by
  induction lines with
  | nil => rfl
  | cons l t ih =>
    by_cases h2 : 2 ≤ countPipe l
    · simp [fetch_commits_parse, List.filter_cons, h2, List.filterMap_cons] at ih ⊢
      rw [ih]
    · have hnone : fetch_parse_line l = none := fetch_parse_line_none (by omega)
      simp [fetch_commits_parse, List.filter_cons, h2, List.filterMap_cons, hnone] at ih ⊢
      exact ih

/-- C10: for every log line of the form hash|date|subject containing exactly
two pipe delimiters, the parser yields a record whose three fields are exactly
the hash, the date and the subject of that line. -/
theorem claim_C10_thm (h d m : Str) (hh : countPipe h = 0) (hd : countPipe d = 0)
    (hm : countPipe m = 0) :
    fetch_parse_line (h ++ '|' :: (d ++ '|' :: m)) = some ⟨h, d, m⟩ := by
  have hcount : countPipe (h ++ '|' :: (d ++ '|' :: m)) ≠ 0 := by
    rw [countPipe_append, countPipe_cons_pipe, countPipe_append, countPipe_cons_pipe]
    omega
  have hall := all_space_false_of_pipe hcount
  have hsf : splitFirst (h ++ '|' :: (d ++ '|' :: m)) = some (h, d ++ '|' :: m) :=
    splitFirst_append hh _
  have hsf2 : splitFirst (d ++ '|' :: m) = some (d, m) := splitFirst_append hd _
  simp [fetch_parse_line, hall, pySplit, hsf, hsf2]

/-- C10 witness: a concrete well-formed line round-trips its three fields. -/
theorem claim_C10_witness :
    countPipe "abc".data = 0 ∧ countPipe "2024-01-01".data = 0 ∧
      countPipe "fix bug".data = 0 ∧
      fetch_parse_line ("abc".data ++ '|' :: ("2024-01-01".data ++ '|' :: "fix bug".data)) =
        some ⟨"abc".data, "2024-01-01".data, "fix bug".data⟩ :=
  ⟨by decide, by decide, by decide,
    claim_C10_thm "abc".data "2024-01-01".data "fix bug".data (by decide) (by decide) (by decide)⟩

theorem lookupGroup_addCommit (acc : List (Str × List Str)) (d m d' : Str) :
    lookupGroup (addCommit acc d m) d' =
      if d' = d then some ((lookupGroup acc d).getD [] ++ [m])
      else lookupGroup acc d' := by
  induction acc with
  | nil =>
    by_cases h : d' = d
    · subst h
      simp [addCommit, lookupGroup]
    · have h2 : ¬ (d = d') := fun hh => h hh.symm
      simp [addCommit, lookupGroup, h, h2]
  | cons p rest ih =>
    obtain ⟨k, ms⟩ := p
    by_cases hkd : k = d
    · subst hkd
      by_cases h : d' = k
      · subst h
        simp [addCommit, lookupGroup]
      · have h2 : ¬ (k = d') := fun hh => h hh.symm
        simp [addCommit, lookupGroup, h, h2]
    · by_cases h : k = d'
      · subst h
        have h2 : ¬ (k = d) := hkd
        have h3 : ¬ (d = k) := fun hh => hkd hh.symm
        simp [addCommit, lookupGroup, h2, h3]
      · simp [addCommit, lookupGroup, hkd, h, ih]

theorem msgsOn_cons (c : Commit) (t : List Commit) (d : Str) :
    msgsOn (c :: t) d = if c.date = d then c.message :: msgsOn t d else msgsOn t d := by
  by_cases h : c.date = d <;> simp [msgsOn, List.filter_cons, h]

theorem lookupGroup_foldl (cs : List Commit) :
    ∀ (acc : List (Str × List Str)) (d : Str),
      lookupGroup (cs.foldl (fun acc c => addCommit acc c.date c.message) acc) d =
        match lookupGroup acc d with
        | some ms => some (ms ++ msgsOn cs d)
        | none => if msgsOn cs d = [] then none else some (msgsOn cs d) := by
  induction cs with
  | nil =>
    intro acc d
    simp only [List.foldl_nil]
    cases h : lookupGroup acc d <;> simp [msgsOn, h]
  | cons c t ih =>
    intro acc d
    rw [List.foldl_cons, ih, lookupGroup_addCommit, msgsOn_cons]
    by_cases hd : c.date = d
    · subst hd
      simp only [if_pos rfl]
      cases hacc : lookupGroup acc c.date with
      | none => simp
      | some ms => simp [List.append_assoc]
    · have hd' : ¬ (d = c.date) := fun hh => hd hh.symm
      simp only [if_neg hd, if_neg hd']

theorem lookupGroup_group (commits : List Commit) (d : Str) :
    lookupGroup (group_commits_by_date commits) d =
      if msgsOn commits d = [] then none else some (msgsOn commits d) := by
  have h := lookupGroup_foldl commits [] d
  simpa [group_commits_by_date, lookupGroup] using h

/-- C5: grouping by date is stable: for commits dated
[2024-01-02, 2024-01-01, 2024-01-02] the result has exactly two keys and the
2024-01-02 group keeps its two messages in input order; in general each
date's group lists exactly that date's messages in input order. -/
theorem claim_C5_thm :
    ((group_commits_by_date
        [⟨"h1".data, "2024-01-02".data, "m1".data⟩,
         ⟨"h2".data, "2024-01-01".data, "m2".data⟩,
         ⟨"h3".data, "2024-01-02".data, "m3".data⟩]).map Prod.fst).length = 2 ∧
    lookupGroup (group_commits_by_date
        [⟨"h1".data, "2024-01-02".data, "m1".data⟩,
         ⟨"h2".data, "2024-01-01".data, "m2".data⟩,
         ⟨"h3".data, "2024-01-02".data, "m3".data⟩]) "2024-01-02".data =
      some ["m1".data, "m3".data] ∧
    ∀ (commits : List Commit) (d : Str),
      lookupGroup (group_commits_by_date commits) d =
        if msgsOn commits d = [] then none else some (msgsOn commits d) :=
  ⟨by decide, by decide, lookupGroup_group⟩

theorem ltb_lt_of_not_lt {e s d : PyDate} (hes : PyDate.ltb e s = true)
    (hds : PyDate.ltb d s = false) : PyDate.ltb e d = true := by
  simp only [PyDate.ltb, decide_eq_true_eq, decide_eq_false_iff_not] at *
  omega

theorem filter_commits_no_bounds {cs : List Commit}
    (hp : ∀ c ∈ cs, (parseDate c.date).isSome) :
    filter_commits cs none none = some cs := by
  induction cs with
  | nil => rfl
  | cons c t ih =>
    obtain ⟨d, hd⟩ := Option.isSome_iff_exists.mp (hp c (by simp))
    have ht := ih (fun x hx => hp x (by simp [hx]))
    simp [filter_commits, hd, ht, startSkip, endSkip]

theorem filter_commits_empty_of_gt {cs : List Commit} {s e : PyDate}
    (hp : ∀ c ∈ cs, (parseDate c.date).isSome) (hgt : PyDate.ltb e s = true) :
    filter_commits cs (some s) (some e) = some [] := by
  induction cs with
  | nil => rfl
  | cons c t ih =>
    obtain ⟨d, hd⟩ := Option.isSome_iff_exists.mp (hp c (by simp))
    have ht := ih (fun x hx => hp x (by simp [hx]))
    by_cases hds : PyDate.ltb d s
    · simp [filter_commits, hd, ht, startSkip, hds]
    · have hed : PyDate.ltb e d = true :=
        ltb_lt_of_not_lt hgt (by simpa using hds)
      simp [filter_commits, hd, ht, startSkip, hds, endSkip, hed]

theorem filter_commits_no_bounds_inv :
    ∀ {cs l : List Commit}, filter_commits cs none none = some l → l = cs := by
  intro cs
  induction cs with
  | nil =>
    intro l h
    simp only [filter_commits] at h
    exact (Option.some_inj.mp h).symm
  | cons c t ih =>
    intro l h
    simp only [filter_commits] at h
    cases hp : parseDate c.date with
    | none => rw [hp] at h; cases h
    | some d =>
      rw [hp] at h
      cases hft : filter_commits t none none with
      | none => rw [hft] at h; cases h
      | some fr =>
        rw [hft] at h
        simp only [startSkip, endSkip, if_neg Bool.false_ne_true] at h
        rw [ih hft] at h
        simp at h
        exact h.symm

theorem filter_commits_raises :
    ∀ {cs : List Commit} (s e : Option PyDate),
      (∃ c ∈ cs, parseDate c.date = none) → filter_commits cs s e = none := by
  intro cs
  induction cs with
  | nil =>
    rintro s e ⟨c, hc, _⟩
    cases hc
  | cons c t ih =>
    rintro s e ⟨x, hx, hpx⟩
    rcases List.mem_cons.mp hx with rfl | hxt
    · simp [filter_commits, hpx]
    · cases hp : parseDate c.date with
      | none => simp [filter_commits, hp]
      | some d => simp [filter_commits, hp, ih s e ⟨x, hxt, hpx⟩]

/-- C3: on a commit list whose dates all parse, filtering with both bounds
absent returns the input unchanged in order, and filtering with both bounds
present and start > end returns the empty list (not an error). -/
theorem claim_C3_thm (commits : List Commit)
    (hp : ∀ c ∈ commits, (parseDate c.date).isSome) :
    filter_commits commits none none = some commits ∧
      ∀ s e : PyDate, PyDate.ltb e s = true →
        filter_commits commits (some s) (some e) = some [] :=
  ⟨filter_commits_no_bounds hp, fun _ _ h => filter_commits_empty_of_gt hp h⟩

/-- C3 witness: a concrete one-commit list, unchanged with no bounds and
emptied by the inverted range 2024-01-03 .. 2024-01-01. -/
theorem claim_C3_witness :
    (∀ c ∈ [Commit.mk "h".data "2024-01-02".data "m".data],
        (parseDate c.date).isSome) ∧
    filter_commits [Commit.mk "h".data "2024-01-02".data "m".data] none none =
      some [Commit.mk "h".data "2024-01-02".data "m".data] ∧
    PyDate.ltb ⟨2024, 1, 1⟩ ⟨2024, 1, 3⟩ = true ∧
    filter_commits [Commit.mk "h".data "2024-01-02".data "m".data]
      (some ⟨2024, 1, 3⟩) (some ⟨2024, 1, 1⟩) = some [] :=
  ⟨by decide,
   (claim_C3_thm _ (by decide)).1,
   by decide,
   (claim_C3_thm _ (by decide)).2 ⟨2024, 1, 3⟩ ⟨2024, 1, 1⟩ (by decide)⟩

theorem filterMap_eq_nil_of_none {α β : Type} {f : α → Option β} :
    ∀ {l : List α}, (∀ a ∈ l, f a = none) → l.filterMap f = [] := by
  intro l
  induction l with
  | nil => intro _; rfl
  | cons a t ih =>
    intro h
    rw [List.filterMap_cons, h a (by simp)]
    exact ih (fun x hx => h x (by simp [hx]))

/-- C6: point extraction yields [did X, did Y] on two dashes plus prose,
[just prose] on plain prose, [] on the empty summary; and with no matching
line and a non-empty summary it falls back to the whole trimmed summary as
one point. -/
theorem claim_C6_thm :
    extract_task_points "- did X\n- did Y\nnote".data = ["did X".data, "did Y".data] ∧
    extract_task_points "just prose".data = ["just prose".data] ∧
    extract_task_points "".data = [] ∧
    ∀ summary : Str,
      (∀ l ∈ pySplitlines summary, bulletMatch (pyStrip l) = false) →
      (pyStrip summary).isEmpty = false →
      extract_task_points summary = [pyStrip summary] := by
  refine ⟨by decide, by decide, by decide, ?_⟩
  intro summary hnb hne
  have hpts : (pySplitlines summary).filterMap (fun line =>
      if bulletMatch (pyStrip line) then some (pyStrip (stripBulletMarks (pyStrip line)))
      else none) = [] := by
    apply filterMap_eq_nil_of_none
    intro l hl
    simp [hnb l hl]
  simp [extract_task_points, hpts, hne]

/-- C6 witness: a summary with no bullet line degrades to one trimmed point. -/
theorem claim_C6_witness :
    (∀ l ∈ pySplitlines "  worked on stuff \nmore".data,
        bulletMatch (pyStrip l) = false) ∧
    (pyStrip "  worked on stuff \nmore".data).isEmpty = false ∧
    extract_task_points "  worked on stuff \nmore".data =
      [pyStrip "  worked on stuff \nmore".data] :=
  ⟨by decide, by decide,
    claim_C6_thm.2.2.2 "  worked on stuff \nmore".data (by decide) (by decide)⟩

/-- C7: a commit whose date does not parse as YYYY-MM-DD makes filter_commits
raise whatever the bounds; the top-level flow does not catch it, so the
process dies with an exception rather than an exit code or a report. -/
theorem claim_C7_thm (commits : List Commit) (s e : Option PyDate)
    (hbad : ∃ c ∈ commits, parseDate c.date = none) :
    filter_commits commits s e = none ∧
      ∀ (net : GeminiNet) (api_key repoName : Str), commits ≠ [] →
        mainFlow net api_key repoName commits s e = MainResult.exception := by
  have hf := filter_commits_raises s e hbad
  refine ⟨hf, ?_⟩
  intro net key rn hne
  cases commits with
  | nil => exact absurd rfl hne
  | cons c t => simp [mainFlow, hf]

/-- C7 witness: the date 2024-13-01 (month 13) fails to parse and the run
dies in the filter even with both bounds supplied. -/
theorem claim_C7_witness :
    (∃ c ∈ [Commit.mk "h".data "2024-13-01".data "m".data], parseDate c.date = none) ∧
    filter_commits [Commit.mk "h".data "2024-13-01".data "m".data]
      (some ⟨2024, 1, 1⟩) (some ⟨2024, 12, 31⟩) = none ∧
    mainFlow netNull "k".data "repo".data
      [Commit.mk "h".data "2024-13-01".data "m".data]
      (some ⟨2024, 1, 1⟩) (some ⟨2024, 12, 31⟩) = MainResult.exception :=
  ⟨by decide,
   (claim_C7_thm _ _ _ (by decide)).1,
   (claim_C7_thm _ _ _ (by decide)).2 netNull "k".data "repo".data (by decide)⟩

theorem analyze_commits_str_none (net : GeminiNet) (commits : List Commit)
    (api_key repoName : Str) (a b : Str) :
    analyze_commits net commits api_key repoName (DateOrStr.str a) (DateOrStr.str b) = none := by
  have h : dateLabel (DateOrStr.str a) (DateOrStr.str b) = none := by
    simp only [dateLabel, strftimeD]
    split <;> rfl
  simp [analyze_commits, h]

/-- C2: in all-history mode (no start and no end date), a non-empty fetched
commit list never reaches normal completion: the flow hands the first and
last commits' date strings to analyze_commits, whose strftime call raises
before any report is written. -/
theorem claim_C2_thm (net : GeminiNet) (api_key repoName : Str)
    (commits : List Commit) (hne : commits ≠ []) :
    mainFlow net api_key repoName commits none none = MainResult.exception ∧
      ∀ a b : Str, analyze_commits net commits api_key repoName
          (DateOrStr.str a) (DateOrStr.str b) = none := by
  refine ⟨?_, fun a b => analyze_commits_str_none net commits api_key repoName a b⟩
  cases commits with
  | nil => exact absurd rfl hne
  | cons f t =>
    cases hf : filter_commits (f :: t) none none with
    | none => simp [mainFlow, hf]
    | some filtered =>
      have heq := filter_commits_no_bounds_inv hf
      subst heq
      simp [mainFlow, hf, analyze_commits_str_none]

/-- C2 witness: one commit, all-history mode, flow dies with an exception. -/
theorem claim_C2_witness :
    ([Commit.mk "h".data "2024-01-01".data "m".data] ≠ ([] : List Commit)) ∧
    mainFlow netNull "k".data "repo".data
      [Commit.mk "h".data "2024-01-01".data "m".data] none none =
      MainResult.exception :=
  ⟨by decide,
   (claim_C2_thm netNull "k".data "repo".data _ (by decide)).1⟩

theorem summarize_raise {net : GeminiNet} {msgs : List Str} {key m : Str}
    (h : net (gemini_prompt msgs) key = NetOutcome.raiseMsg m) :
    summarize_with_gemini net msgs key = geminiError m := by
  simp [summarize_with_gemini, h, geminiTry]

theorem lookupKV_none_any {kvs : List (Str × PyJson)} {key : Str}
    (h : lookupKV kvs key = none) :
    kvs.any (fun kv => decide (kv.1 = key)) = false := by
  induction kvs with
  | nil => rfl
  | cons kv rest ih =>
    obtain ⟨k, v⟩ := kv
    by_cases hk : k = key
    · simp [lookupKV, hk] at h
    · simp only [lookupKV, if_neg hk] at h
      simp [List.any_cons, hk, ih h]

theorem lookupKV_some_any {kvs : List (Str × PyJson)} {key : Str} {v : PyJson}
    (h : lookupKV kvs key = some v) :
    kvs.any (fun kv => decide (kv.1 = key)) = true := by
  induction kvs with
  | nil => cases h
  | cons kv rest ih =>
    obtain ⟨k, w⟩ := kv
    by_cases hk : k = key
    · simp [List.any_cons, hk]
    · simp only [lookupKV, if_neg hk] at h
      simp [List.any_cons, ih h]

theorem summarize_no_candidates {net : GeminiNet} {msgs : List Str} {key : Str}
    {kvs : List (Str × PyJson)}
    (h : net (gemini_prompt msgs) key = NetOutcome.okJson (PyJson.jobj kvs))
    (hnone : lookupKV kvs "candidates".data = none) :
    summarize_with_gemini net msgs key = noSummarySentinel := by
  simp [summarize_with_gemini, h, geminiTry, pyIn, lookupKV_none_any hnone]

theorem summarize_falsy_candidates {net : GeminiNet} {msgs : List Str} {key : Str}
    {kvs : List (Str × PyJson)} {v : PyJson}
    (h : net (gemini_prompt msgs) key = NetOutcome.okJson (PyJson.jobj kvs))
    (hsome : lookupKV kvs "candidates".data = some v) (hf : pyTruthy v = false) :
    summarize_with_gemini net msgs key = noSummarySentinel := by
  simp [summarize_with_gemini, h, geminiTry, pyIn, lookupKV_some_any hsome,
    pySubscr, hsome, hf]

theorem mem_insertSorted {x y : Str} {l : List Str} :
    x ∈ insertSorted y l ↔ x = y ∨ x ∈ l := by
  induction l with
  | nil => simp [insertSorted]
  | cons z t ih =>
    by_cases hz : lexLe y z
    · simp [insertSorted, hz]
    · simp [insertSorted, hz, ih]
      tauto

theorem mem_pySorted {x : Str} {l : List Str} : x ∈ pySorted l ↔ x ∈ l := by
  induction l with
  | nil => simp [pySorted]
  | cons y t ih =>
    simp only [pySorted, List.foldr_cons] at ih ⊢
    rw [mem_insertSorted, ih]
    simp

theorem lookupGroup_some_mem_keys {g : List (Str × List Str)} {d : Str} {ms : List Str}
    (h : lookupGroup g d = some ms) : d ∈ g.map Prod.fst := by
  induction g with
  | nil => cases h
  | cons p rest ih =>
    obtain ⟨k, vs⟩ := p
    by_cases hk : k = d
    · simp [hk]
    · simp only [lookupGroup, if_neg hk] at h
      simp [ih h]

theorem dateLabel_dates (s e : PyDate) :
    dateLabel (DateOrStr.date s) (DateOrStr.date e) =
      some (if s = e then fmtDate s else fmtDate s ++ "_to_".data ++ fmtDate e) := by
  by_cases hse : s = e
  · subst hse
    simp [dateLabel, pyEqDS, strftimeD]
  · simp [dateLabel, pyEqDS, strftimeD, hse]

theorem analyze_date_summary_mem {net : GeminiNet} {api_key repoName msg : Str}
    {commits : List Commit} (s e : PyDate)
    (hnet : ∀ p k, net p k = NetOutcome.raiseMsg msg) (hne : commits ≠ []) :
    (analyze_commits net commits api_key repoName
        (DateOrStr.date s) (DateOrStr.date e)).elim False
      (fun rep => ("**Summary:** ".data ++ geminiError msg ++ "\n".data) ∈ rep.lines) := by
  cases commits with
  | nil => exact absurd rfl hne
  | cons f t =>
    have hme : msgsOn (f :: t) f.date ≠ [] := by
      rw [msgsOn_cons, if_pos rfl]
      exact List.cons_ne_nil _ _
    have hlook : lookupGroup (group_commits_by_date (f :: t)) f.date =
        some (msgsOn (f :: t) f.date) := by
      rw [lookupGroup_group, if_neg hme]
    have hdmem : f.date ∈ pySorted ((group_commits_by_date (f :: t)).map Prod.fst) :=
      mem_pySorted.mpr (lookupGroup_some_mem_keys hlook)
    simp only [analyze_commits, dateLabel_dates, Option.elim]
    apply List.mem_cons_of_mem
    rw [List.mem_flatten]
    refine ⟨_, List.mem_map_of_mem _ hdmem, ?_⟩
    have hsum : summarize_with_gemini net
        ((lookupGroup (group_commits_by_date (f :: t)) f.date).getD []) api_key =
        geminiError msg := summarize_raise (hnet _ _)
    rw [hsum]
    simp

/-- C4 (counterexample): a 200 response whose JSON body is null lacks
candidates, yet the membership test itself raises and the swallowed failure
yields the error sentinel, not the fixed no-summary sentinel. -/
theorem claim_C4_cex :
    summarize_with_gemini netNull ["m".data] "k".data =
        geminiError "argument of type is not iterable".data ∧
      geminiError "argument of type is not iterable".data ≠ noSummarySentinel := by
  constructor
  · decide
  · decide

/-- C4 (amended): the summarizer client never raises past its boundary: on a
network or HTTP-level failure it returns the error sentinel embedding the
failure reason; on a JSON-object response without a candidates key, or with
a falsy candidates value, it returns the fixed no-summary sentinel (a
non-object response without candidates degrades to the error sentinel
instead); and report writing with a failed summary embeds the placeholder in
the report rather than raising. -/
theorem claim_C4_thm :
    (∀ (net : GeminiNet) (msgs : List Str) (key m : Str),
        net (gemini_prompt msgs) key = NetOutcome.raiseMsg m →
        summarize_with_gemini net msgs key = geminiError m) ∧
    (∀ (net : GeminiNet) (msgs : List Str) (key : Str) (kvs : List (Str × PyJson)),
        net (gemini_prompt msgs) key = NetOutcome.okJson (PyJson.jobj kvs) →
        lookupKV kvs "candidates".data = none →
        summarize_with_gemini net msgs key = noSummarySentinel) ∧
    (∀ (net : GeminiNet) (msgs : List Str) (key : Str) (kvs : List (Str × PyJson))
        (v : PyJson),
        net (gemini_prompt msgs) key = NetOutcome.okJson (PyJson.jobj kvs) →
        lookupKV kvs "candidates".data = some v → pyTruthy v = false →
        summarize_with_gemini net msgs key = noSummarySentinel) ∧
    (∀ (net : GeminiNet) (api_key repoName msg : Str) (commits : List Commit)
        (s e : PyDate),
        (∀ p k, net p k = NetOutcome.raiseMsg msg) → commits ≠ [] →
        (analyze_commits net commits api_key repoName
            (DateOrStr.date s) (DateOrStr.date e)).elim False
          (fun rep =>
            ("**Summary:** ".data ++ geminiError msg ++ "\n".data) ∈ rep.lines)) :=
  ⟨fun _ _ _ _ h => summarize_raise h,
   fun _ _ _ _ h hn => summarize_no_candidates h hn,
   fun _ _ _ _ _ h hs hf => summarize_falsy_candidates h hs hf,
   fun _ _ _ _ _ s e hnet hne => analyze_date_summary_mem s e hnet hne⟩

/-- C4 witness: concrete failing, candidate-less and empty-candidates
networks produce the sentinels, and a report built under a failing network
embeds the error placeholder. -/
theorem claim_C4_witness :
    summarize_with_gemini (netFail "boom".data) ["m".data] "k".data =
        geminiError "boom".data ∧
    summarize_with_gemini netNoCand ["m".data] "k".data = noSummarySentinel ∧
    summarize_with_gemini netEmptyCand ["m".data] "k".data = noSummarySentinel ∧
    (analyze_commits (netFail "boom".data)
        [Commit.mk "h".data "2024-01-01".data "m".data] "k".data "repo".data
        (DateOrStr.date ⟨2024, 1, 1⟩) (DateOrStr.date ⟨2024, 1, 1⟩)).elim False
      (fun rep =>
        ("**Summary:** ".data ++ geminiError "boom".data ++ "\n".data) ∈ rep.lines) :=
  ⟨claim_C4_thm.1 (netFail "boom".data) ["m".data] "k".data "boom".data rfl,
   claim_C4_thm.2.1 netNoCand ["m".data] "k".data [("other".data, PyJson.jnull)]
     rfl (by simp [lookupKV]),
   claim_C4_thm.2.2.1 netEmptyCand ["m".data] "k".data
     [("candidates".data, PyJson.jarr [])] (PyJson.jarr []) rfl
     (by simp [lookupKV]) rfl,
   claim_C4_thm.2.2.2 (netFail "boom".data) "k".data "repo".data "boom".data
     [Commit.mk "h".data "2024-01-01".data "m".data] ⟨2024, 1, 1⟩ ⟨2024, 1, 1⟩
     (fun _ _ => rfl) (by decide)⟩

theorem analyze_commits_date_some (net : GeminiNet) (commits : List Commit)
    (api_key repoName : Str) {s e : DateOrStr} {lab : Str}
    (h : dateLabel s e = some lab) :
    ∃ rep, analyze_commits net commits api_key repoName s e = some rep ∧
      rep.path = "reports/".data ++ repoName ++ "/".data ++ lab ++ ".md".data := by
  simp only [analyze_commits, h]
  exact ⟨_, rfl, rfl⟩

/-- C8: the report path is the deterministic function
reports/<repo-name>/<label>.md of the repository base name and the date
label (single date when start = end, else start_to_end), and writing, or
writing again with the same inputs, leaves exactly the document at that
path (overwrite, not append). -/
theorem claim_C8_thm (net : GeminiNet) (api_key repoName : Str)
    (commits : List Commit) (s e : PyDate) (fs : Str → Option Str) :
    ∃ rep, analyze_commits net commits api_key repoName
        (DateOrStr.date s) (DateOrStr.date e) = some rep ∧
      rep.path = specReportPath repoName s e ∧
      fsWrite fs rep.path (pyJoinNL rep.lines) rep.path = some (pyJoinNL rep.lines) ∧
      fsWrite (fsWrite fs rep.path (pyJoinNL rep.lines)) rep.path (pyJoinNL rep.lines)
          rep.path = some (pyJoinNL rep.lines) := by
  obtain ⟨rep, hA, hpath⟩ :=
    analyze_commits_date_some net commits api_key repoName (dateLabel_dates s e)
  refine ⟨rep, hA, ?_, ?_, ?_⟩
  · rw [hpath]
    rfl
  · simp [fsWrite]
  · simp [fsWrite]

/-- C9: the top-level flow exits 1 on an empty commit log and 0 when commits
exist but the filtered range is empty; exit 1 is also used for unparseable
menu input, a new repository path that is not a directory (with non-empty or
empty stored paths), and a missing credential. -/
theorem claim_C9_thm :
    (∀ (net : GeminiNet) (api_key repoName : Str) (s e : Option PyDate),
        mainFlow net api_key repoName [] s e = MainResult.exitCode 1) ∧
    (∀ (net : GeminiNet) (api_key repoName : Str) (commits : List Commit)
        (s e : Option PyDate),
        commits ≠ [] → filter_commits commits s e = some [] →
        mainFlow net api_key repoName commits s e = MainResult.exitCode 0) ∧
    (∀ (paths : List Str) (choice newPath : Str) (isDir : Str → Bool),
        paths ≠ [] → pyInt (pyStrip choice) = none →
        prompt_repo_path paths choice newPath isDir = PromptResult.exit 1) ∧
    (∀ (paths : List Str) (choice newPath : Str) (isDir : Str → Bool),
        paths ≠ [] → pyInt (pyStrip choice) = some ((paths.length : Int) + 1) →
        isDir (pyStrip newPath) = false →
        prompt_repo_path paths choice newPath isDir = PromptResult.exit 1) ∧
    (∀ (newPath : Str) (isDir : Str → Bool) (choice : Str),
        isDir (pyStrip newPath) = false →
        prompt_repo_path [] choice newPath isDir = PromptResult.exit 1) ∧
    (∀ (dotenvKey envKey : Option Str) (typed : Str),
        pyFalsyStrOpt dotenvKey = true → pyFalsyStrOpt envKey = true →
        (pyStrip typed).isEmpty = true →
        resolveApiKey dotenvKey envKey typed = none) := by
  refine ⟨?_, ?_, ?_, ?_, ?_, ?_⟩
  · intro net key rn s e
    simp [mainFlow]
  · intro net key rn commits s e hne hf
    cases commits with
    | nil => exact absurd rfl hne
    | cons c t => simp [mainFlow, hf]
  · intro paths choice np isDir hne hint
    cases paths with
    | nil => exact absurd rfl hne
    | cons p ps => simp [prompt_repo_path, hint]
  · intro paths choice np isDir hne hint hdir
    cases paths with
    | nil => exact absurd rfl hne
    | cons p ps =>
      simp only [prompt_repo_path, hint]
      have hno : ¬((1 : Int) ≤ ((p :: ps).length : Int) + 1 ∧
          ((p :: ps).length : Int) + 1 ≤ ((p :: ps).length : Int)) := by omega
      rw [if_neg hno]
      simp [hdir]
  · intro np isDir choice hdir
    simp [prompt_repo_path, hdir]
  · intro dk ek typed h1 h2 h3
    have h4 : pyFalsyStrOpt (some (pyStrip typed)) = true := by
      simp [pyFalsyStrOpt, h3]
    simp [resolveApiKey, h1, h2, h4]

/-- C9 witness: concrete runs hitting each exit path. -/
theorem claim_C9_witness :
    mainFlow netNull "k".data "repo".data [] none none = MainResult.exitCode 1 ∧
    filter_commits [Commit.mk "h".data "2024-01-02".data "m".data]
        (some ⟨2024, 1, 5⟩) (some ⟨2024, 1, 5⟩) = some [] ∧
    mainFlow netNull "k".data "repo".data
        [Commit.mk "h".data "2024-01-02".data "m".data]
        (some ⟨2024, 1, 5⟩) (some ⟨2024, 1, 5⟩) = MainResult.exitCode 0 ∧
    pyInt (pyStrip "abc".data) = none ∧
    prompt_repo_path ["p".data] "abc".data "q".data (fun _ => false) =
        PromptResult.exit 1 ∧
    prompt_repo_path ["p".data] "2".data "q".data (fun _ => false) =
        PromptResult.exit 1 ∧
    prompt_repo_path [] "x".data "q".data (fun _ => false) = PromptResult.exit 1 ∧
    resolveApiKey none none "  ".data = none :=
  ⟨claim_C9_thm.1 netNull "k".data "repo".data none none,
   by decide,
   claim_C9_thm.2.1 netNull "k".data "repo".data
     [Commit.mk "h".data "2024-01-02".data "m".data]
     (some ⟨2024, 1, 5⟩) (some ⟨2024, 1, 5⟩) (by decide) (by decide),
   by decide,
   claim_C9_thm.2.2.1 ["p".data] "abc".data "q".data (fun _ => false)
     (by decide) (by decide),
   claim_C9_thm.2.2.2.1 ["p".data] "2".data "q".data (fun _ => false)
     (by decide) (by decide) rfl,
   claim_C9_thm.2.2.2.2.1 "q".data (fun _ => false) "x".data rfl,
   claim_C9_thm.2.2.2.2.2 none none "  ".data rfl rfl (by decide)⟩
